import Mathlib

/-!
Shallow embedding of the `EncryptedMessages` Solidity contract
(FHE-encrypted message registry).

Modelling choices:
* Addresses, ciphertext handles (`euint64` / `euint32`), proofs and ledger
  timestamps are `Nat`.  Ciphertext handles are opaque tokens: the registry
  never inspects them.
* The Solidity mappings `_messages`, `_userMessages` are total functions with
  the Solidity zero-value defaults (`sender = 0`, `exists = false`, `[]`).
* The FHE collaborator (`FHE.fromExternal`, `FHE.asEuintXX`) is a structure of
  functions; `fromExternal` returns `none` when the collaborator rejects the
  input proof, in which case the whole call reverts (`Except.error`), exactly
  the EVM revert semantics: a reverted call leaves the state unchanged.
* `FHE.allowThis h` / `FHE.allow h a` are recorded as `(h, address)` pairs
  appended to an access-control list, where `allowThis` grants to the
  contract's own address (`ctx.self`).
* Emitted events are accumulated in an `events` log.
* The ambient call context (`address(this)`, `msg.sender`, `block.timestamp`)
  is an explicit `Ctx` record.
-/

namespace EncryptedMessages

/-- The `Message` struct of the contract.  `exists_` renders the Solidity
field `exists` (a Lean keyword). -/
structure Message where
  sender : Nat
  encryptedContent : Nat
  encryptedTimestamp : Nat
  createdAt : Nat
  exists_ : Bool
  deriving DecidableEq, Repr

/-- The two events declared by the contract.  `MessageAccessed` is declared in
the source but never emitted. -/
inductive Event where
  | MessageSubmitted (messageId : Nat) (sender : Nat) (timestamp : Nat)
  | MessageAccessed (messageId : Nat) (accessor : Nat)
  deriving DecidableEq, Repr

/-- Contract storage plus the externally observable FHE grants and event log.
`messages`, `userMessages`, `totalMessages` render `_messages`,
`_userMessages`, `_totalMessages`. -/
structure RegistryState where
  messages : Nat → Message
  userMessages : Nat → List Nat
  totalMessages : Nat
  acl : List (Nat × Nat)
  events : List Event

/-- The FHE collaborator: validated import of external ciphertexts (`none`
models a rejected input proof) and trivial wrapping of plaintext for the
test-only mock path. -/
structure FHECollab where
  fromExternal64 : Nat → Nat → Option Nat
  fromExternal32 : Nat → Nat → Option Nat
  asEuint64 : Nat → Nat
  asEuint32 : Nat → Nat

/-- Ambient call context: `address(this)`, `msg.sender`, `block.timestamp`. -/
structure Ctx where
  self : Nat
  caller : Nat
  blockTimestamp : Nat
  deriving DecidableEq, Repr

/-- The three error kinds of the spec: `ProofInvalid` is the collaborator
rejecting `fromExternal`; the other two are the `require` failures of the
gated reads. -/
inductive Err where
  | ProofInvalid
  | MessageNotFound
  | NotAuthorized
  deriving DecidableEq, Repr

/-- Solidity zero-value `Message` (mapping default). -/
def defaultMessage : Message :=
  { sender := 0, encryptedContent := 0, encryptedTimestamp := 0,
    createdAt := 0, exists_ := false }

/-- Freshly deployed contract: empty mappings, zero counter, nothing granted,
nothing emitted. -/
def initialState : RegistryState :=
  { messages := fun _ => defaultMessage
    userMessages := fun _ => []
    totalMessages := 0
    acl := []
    events := [] }

/-- `submitMessage(externalEuint64, externalEuint32, bytes)`: import both
ciphertexts through the collaborator (reverting with `ProofInvalid` if
either import is rejected), allocate `messageId = _totalMessages++`, store the
message, append to the sender's index, grant the contract and the sender
access to both handles, and emit `MessageSubmitted`. -/
def submitMessage (fhe : FHECollab) (ctx : Ctx)
    (encryptedContent encryptedTimestamp inputProof : Nat)
    (s : RegistryState) : Except Err RegistryState :=
  match fhe.fromExternal64 encryptedContent inputProof with
  | none => Except.error Err.ProofInvalid
  | some content =>
    match fhe.fromExternal32 encryptedTimestamp inputProof with
    | none => Except.error Err.ProofInvalid
    | some timestamp =>
      let messageId := s.totalMessages
      Except.ok
        { messages := fun i => if i = messageId then
            { sender := ctx.caller
              encryptedContent := content
              encryptedTimestamp := timestamp
              createdAt := ctx.blockTimestamp
              exists_ := true }
            else s.messages i
          userMessages := fun a => if a = ctx.caller
            then s.userMessages a ++ [messageId] else s.userMessages a
          totalMessages := s.totalMessages + 1
          acl := s.acl ++ [(content, ctx.self), (content, ctx.caller),
                           (timestamp, ctx.self), (timestamp, ctx.caller)]
          events := s.events ++
            [Event.MessageSubmitted messageId ctx.caller ctx.blockTimestamp] }

/-- `getUserMessages()`: the caller's index, verbatim. -/
def getUserMessages (ctx : Ctx) (s : RegistryState) : List Nat :=
  s.userMessages ctx.caller

/-- `getUserMessageCount(address)`: length of the user's index. -/
def getUserMessageCount (user : Nat) (s : RegistryState) : Nat :=
  (s.userMessages user).length

/-- `getMessageMetadata(uint256)`: plain lookup, zero-value defaults for
never-assigned ids. -/
def getMessageMetadata (messageId : Nat) (s : RegistryState) :
    Nat × Nat × Bool :=
  ((s.messages messageId).sender, (s.messages messageId).createdAt,
    (s.messages messageId).exists_)

/-- `getEncryptedContent(uint256)`: `require(exists)` then
`require(sender == msg.sender)`, in that order, then return the stored
content handle. -/
def getEncryptedContent (ctx : Ctx) (messageId : Nat) (s : RegistryState) :
    Except Err Nat :=
  if (s.messages messageId).exists_ = true then
    if (s.messages messageId).sender = ctx.caller then
      Except.ok (s.messages messageId).encryptedContent
    else Except.error Err.NotAuthorized
  else Except.error Err.MessageNotFound

/-- `getEncryptedTimestamp(uint256)`: same two checks, then the stored
timestamp handle. -/
def getEncryptedTimestamp (ctx : Ctx) (messageId : Nat) (s : RegistryState) :
    Except Err Nat :=
  if (s.messages messageId).exists_ = true then
    if (s.messages messageId).sender = ctx.caller then
      Except.ok (s.messages messageId).encryptedTimestamp
    else Except.error Err.NotAuthorized
  else Except.error Err.MessageNotFound

/-- `getTotalMessages()`. -/
def getTotalMessages (s : RegistryState) : Nat :=
  s.totalMessages

/-- `isMessageOwner(uint256)`: `exists && sender == msg.sender`. -/
def isMessageOwner (ctx : Ctx) (messageId : Nat) (s : RegistryState) : Bool :=
  (s.messages messageId).exists_ && (s.messages messageId).sender == ctx.caller

/-- `submitMessageMock(uint64, uint32)`: test-only path that wraps plaintext
via `FHE.asEuint64` / `FHE.asEuint32` instead of validating a proof; the
registry bookkeeping is the same as `submitMessage` and the call cannot
revert. -/
def submitMessageMock (fhe : FHECollab) (ctx : Ctx)
    (content timestamp : Nat) (s : RegistryState) : RegistryState :=
  let encContent := fhe.asEuint64 content
  let encTimestamp := fhe.asEuint32 timestamp
  let messageId := s.totalMessages
  { messages := fun i => if i = messageId then
      { sender := ctx.caller
        encryptedContent := encContent
        encryptedTimestamp := encTimestamp
        createdAt := ctx.blockTimestamp
        exists_ := true }
      else s.messages i
    userMessages := fun a => if a = ctx.caller
      then s.userMessages a ++ [messageId] else s.userMessages a
    totalMessages := s.totalMessages + 1
    acl := s.acl ++ [(encContent, ctx.self), (encContent, ctx.caller),
                     (encTimestamp, ctx.self), (encTimestamp, ctx.caller)]
    events := s.events ++
      [Event.MessageSubmitted messageId ctx.caller ctx.blockTimestamp] }

/-- EVM transaction semantics for `submitMessage`: a revert leaves the
pre-call state untouched. -/
def applySubmit (fhe : FHECollab) (ctx : Ctx)
    (encryptedContent encryptedTimestamp inputProof : Nat)
    (s : RegistryState) : RegistryState :=
  match submitMessage fhe ctx encryptedContent encryptedTimestamp inputProof s with
  | Except.ok s' => s'
  | Except.error _ => s

/-- One call to any of the nine `external` functions of the contract, with
its ambient context and arguments. -/
inductive Op where
  | submitMessage (fhe : FHECollab) (ctx : Ctx)
      (encryptedContent encryptedTimestamp inputProof : Nat)
  | getUserMessages (ctx : Ctx)
  | getUserMessageCount (user : Nat)
  | getMessageMetadata (messageId : Nat)
  | getEncryptedContent (ctx : Ctx) (messageId : Nat)
  | getEncryptedTimestamp (ctx : Ctx) (messageId : Nat)
  | getTotalMessages
  | isMessageOwner (ctx : Ctx) (messageId : Nat)
  | submitMessageMock (fhe : FHECollab) (ctx : Ctx) (content timestamp : Nat)

/-- State transition of one external call.  The `view` functions do not touch
storage; a reverting `submitMessage` leaves the state unchanged. -/
def applyOp : Op → RegistryState → RegistryState
  | Op.submitMessage fhe ctx c t p, s => applySubmit fhe ctx c t p s
  | Op.getUserMessages _, s => s
  | Op.getUserMessageCount _, s => s
  | Op.getMessageMetadata _, s => s
  | Op.getEncryptedContent _ _, s => s
  | Op.getEncryptedTimestamp _ _, s => s
  | Op.getTotalMessages, s => s
  | Op.isMessageOwner _ _, s => s
  | Op.submitMessageMock fhe ctx c t, s => submitMessageMock fhe ctx c t s

/-- Run a sequence of external calls from a state. -/
def execOps (ops : List Op) (s : RegistryState) : RegistryState :=
  ops.foldl (fun s op => applyOp op s) s

/-- A message is stored at `id` exactly when `id` is below the counter. -/
def ExistsIffLt (s : RegistryState) : Prop :=
  ∀ id, (s.messages id).exists_ = true ↔ id < s.totalMessages

/-- `_userMessages[u]` lists, in submission order, exactly the assigned ids
whose stored sender is `u`. -/
def OwnerIndexed (s : RegistryState) : Prop :=
  ∀ u, s.userMessages u =
    (List.range s.totalMessages).filter
      (fun id => (s.messages id).sender == u)

/-- The registry invariant maintained by every external call. -/
def Inv (s : RegistryState) : Prop :=
  ExistsIffLt s ∧ OwnerIndexed s

lemma inv_initialState : Inv initialState := by
  constructor
  · intro id
    simp [initialState, defaultMessage]
  · intro u
    simp [initialState]

/-- Bookkeeping common to `submitMessage` and `submitMessageMock`: storing a
fresh message preserves the invariant, whatever handles, grants and events the
call produced. -/
lemma inv_store (s : RegistryState) (ctx : Ctx) (ch th : Nat)
    (acl' : List (Nat × Nat)) (events' : List Event) (hInv : Inv s) :
    Inv { messages := fun i => if i = s.totalMessages then
            { sender := ctx.caller, encryptedContent := ch,
              encryptedTimestamp := th, createdAt := ctx.blockTimestamp,
              exists_ := true }
            else s.messages i
          userMessages := fun a => if a = ctx.caller
            then s.userMessages a ++ [s.totalMessages] else s.userMessages a
          totalMessages := s.totalMessages + 1
          acl := acl'
          events := events' } := by
  obtain ⟨hE, hO⟩ := hInv
  constructor
  · intro id
    by_cases hid : id = s.totalMessages
    · subst hid
      simp
    · simp only [if_neg hid]
      rw [hE id]
      omega
  · intro u
    simp only [List.range_succ, List.filter_append]
    have hfilter :
        (List.range s.totalMessages).filter
          (fun id => (if id = s.totalMessages then
              ({ sender := ctx.caller, encryptedContent := ch,
                 encryptedTimestamp := th, createdAt := ctx.blockTimestamp,
                 exists_ := true } : Message)
              else s.messages id).sender == u) =
        (List.range s.totalMessages).filter
          (fun id => (s.messages id).sender == u) := by
      apply List.filter_congr
      intro id hid
      have : id < s.totalMessages := List.mem_range.mp hid
      have hne : id ≠ s.totalMessages := by omega
      simp [hne]
    rw [hfilter]
    by_cases hu : u = ctx.caller
    · simp only [if_pos hu, hO u, List.filter_cons, List.filter_nil]
      simp [hu]
    · simp only [if_neg hu, hO u, List.filter_cons, List.filter_nil]
      have hne : ¬ ((ctx.caller : Nat) == u) = true := by
        simp only [beq_iff_eq]
        exact fun h => hu h.symm
      simp [hne]

/-- Successful `submitMessage` analysed: the imports that succeeded and the
exact post-state. -/
lemma submitMessage_ok_elim (fhe : FHECollab) (ctx : Ctx) (c t p : Nat)
    (s s' : RegistryState)
    (h : submitMessage fhe ctx c t p s = Except.ok s') :
    ∃ ch th, fhe.fromExternal64 c p = some ch ∧
      fhe.fromExternal32 t p = some th ∧
      s' = { messages := fun i => if i = s.totalMessages then
               { sender := ctx.caller, encryptedContent := ch,
                 encryptedTimestamp := th, createdAt := ctx.blockTimestamp,
                 exists_ := true }
               else s.messages i
             userMessages := fun a => if a = ctx.caller
               then s.userMessages a ++ [s.totalMessages]
               else s.userMessages a
             totalMessages := s.totalMessages + 1
             acl := s.acl ++ [(ch, ctx.self), (ch, ctx.caller),
                              (th, ctx.self), (th, ctx.caller)]
             events := s.events ++
               [Event.MessageSubmitted s.totalMessages ctx.caller
                 ctx.blockTimestamp] } := by
  unfold submitMessage at h
  cases h64 : fhe.fromExternal64 c p with
  | none => rw [h64] at h; exact absurd h (by simp)
  | some ch =>
    rw [h64] at h
    cases h32 : fhe.fromExternal32 t p with
    | none => rw [h32] at h; exact absurd h (by simp)
    | some th =>
      rw [h32] at h
      simp only [Except.ok.injEq] at h
      exact ⟨ch, th, rfl, rfl, h.symm⟩

lemma inv_applySubmit (fhe : FHECollab) (ctx : Ctx) (c t p : Nat)
    (s : RegistryState) (hInv : Inv s) :
    Inv (applySubmit fhe ctx c t p s) := by
  unfold applySubmit
  cases h : submitMessage fhe ctx c t p s with
  | error e => exact hInv
  | ok s' =>
    obtain ⟨ch, th, _, _, hs'⟩ := submitMessage_ok_elim fhe ctx c t p s s' h
    rw [hs']
    exact inv_store s ctx ch th _ _ hInv

lemma inv_submitMessageMock (fhe : FHECollab) (ctx : Ctx) (c t : Nat)
    (s : RegistryState) (hInv : Inv s) :
    Inv (submitMessageMock fhe ctx c t s) :=
  inv_store s ctx (fhe.asEuint64 c) (fhe.asEuint32 t) _ _ hInv

lemma inv_applyOp (op : Op) (s : RegistryState) (hInv : Inv s) :
    Inv (applyOp op s) := by
  cases op with
  | submitMessage fhe ctx c t p => exact inv_applySubmit fhe ctx c t p s hInv
  | submitMessageMock fhe ctx c t => exact inv_submitMessageMock fhe ctx c t s hInv
  | getUserMessages ctx => exact hInv
  | getUserMessageCount u => exact hInv
  | getMessageMetadata id => exact hInv
  | getEncryptedContent ctx id => exact hInv
  | getEncryptedTimestamp ctx id => exact hInv
  | getTotalMessages => exact hInv
  | isMessageOwner ctx id => exact hInv

lemma inv_execOps_of (ops : List Op) (s : RegistryState) (hInv : Inv s) :
    Inv (execOps ops s) := by
  induction ops generalizing s with
  | nil => exact hInv
  | cons op ops ih =>
    exact ih (applyOp op s) (inv_applyOp op s hInv)

/-- Every state reachable from deployment satisfies the registry invariant. -/
lemma inv_execOps (ops : List Op) : Inv (execOps ops initialState) :=
  inv_execOps_of ops initialState inv_initialState

/-- Arguments of one `submitMessage` call. -/
structure SubmitCall where
  fhe : FHECollab
  ctx : Ctx
  encryptedContent : Nat
  encryptedTimestamp : Nat
  inputProof : Nat

/-- Run a sequence of `submitMessage` calls, collecting the allocated ids;
`none` as soon as one call reverts. -/
def runSubmits : List SubmitCall → RegistryState →
    Option (List Nat × RegistryState)
  | [], s => some ([], s)
  | c :: cs, s =>
    match submitMessage c.fhe c.ctx c.encryptedContent c.encryptedTimestamp
        c.inputProof s with
    | Except.error _ => none
    | Except.ok s' =>
      match runSubmits cs s' with
      | none => none
      | some (ids, sf) => some (s.totalMessages :: ids, sf)

lemma submitMessage_ok_totalMessages (fhe : FHECollab) (ctx : Ctx)
    (c t p : Nat) (s s' : RegistryState)
    (h : submitMessage fhe ctx c t p s = Except.ok s') :
    s'.totalMessages = s.totalMessages + 1 := by
  obtain ⟨ch, th, _, _, hs'⟩ := submitMessage_ok_elim fhe ctx c t p s s' h
  rw [hs']

lemma submitMessage_ok_inv (fhe : FHECollab) (ctx : Ctx)
    (c t p : Nat) (s s' : RegistryState)
    (h : submitMessage fhe ctx c t p s = Except.ok s') (hInv : Inv s) :
    Inv s' := by
  obtain ⟨ch, th, _, _, hs'⟩ := submitMessage_ok_elim fhe ctx c t p s s' h
  rw [hs']
  exact inv_store s ctx ch th _ _ hInv

/-- A successful run of `n` submissions allocates exactly the ids
`totalMessages, totalMessages+1, …` and advances the counter by `n`. -/
lemma runSubmits_ids (cs : List SubmitCall) :
    ∀ s ids sf, runSubmits cs s = some (ids, sf) →
      sf.totalMessages = s.totalMessages + cs.length ∧
      ids = List.range' s.totalMessages cs.length := by
  induction cs with
  | nil =>
    intro s ids sf h
    simp only [runSubmits, Option.some.injEq, Prod.mk.injEq] at h
    obtain ⟨hids, hsf⟩ := h
    subst hids
    subst hsf
    simp [List.range']
  | cons c cs ih =>
    intro s ids sf h
    unfold runSubmits at h
    cases hsub : submitMessage c.fhe c.ctx c.encryptedContent
        c.encryptedTimestamp c.inputProof s with
    | error e => rw [hsub] at h; exact absurd h (by simp)
    | ok s' =>
      rw [hsub] at h
      dsimp only at h
      cases hrun : runSubmits cs s' with
      | none => rw [hrun] at h; exact absurd h (by simp)
      | some r =>
        obtain ⟨ids', sf'⟩ := r
        rw [hrun] at h
        simp only [Option.some.injEq, Prod.mk.injEq] at h
        obtain ⟨hids, hsf⟩ := h
        obtain ⟨htot, hids'⟩ := ih s' ids' sf' hrun
        have hstep : s'.totalMessages = s.totalMessages + 1 :=
          submitMessage_ok_totalMessages _ _ _ _ _ _ _ hsub

        subst hsf
        constructor
        · rw [htot, hstep, List.length_cons]
          omega
        · rw [← hids, hids', hstep, List.length_cons, List.range'_succ]

lemma runSubmits_inv (cs : List SubmitCall) :
    ∀ s ids sf, runSubmits cs s = some (ids, sf) → Inv s → Inv sf := by
  induction cs with
  | nil =>
    intro s ids sf h hInv
    simp only [runSubmits, Option.some.injEq, Prod.mk.injEq] at h
    rw [← h.2]
    exact hInv
  | cons c cs ih =>
    intro s ids sf h hInv
    unfold runSubmits at h
    cases hsub : submitMessage c.fhe c.ctx c.encryptedContent
        c.encryptedTimestamp c.inputProof s with
    | error e => rw [hsub] at h; exact absurd h (by simp)
    | ok s' =>
      rw [hsub] at h
      dsimp only at h
      cases hrun : runSubmits cs s' with
      | none => rw [hrun] at h; exact absurd h (by simp)
      | some r =>
        obtain ⟨ids', sf'⟩ := r
        rw [hrun] at h
        simp only [Option.some.injEq, Prod.mk.injEq] at h
        rw [← h.2]
        exact ih s' ids' sf' hrun
          (submitMessage_ok_inv _ _ _ _ _ _ _ hsub hInv)

/-- Whether an external call is a submission (of either kind) by `u` that
goes through.  `submitMessage` succeeds exactly when the collaborator accepts
both imports — independent of the registry state. -/
def opSubmitsFor (u : Nat) : Op → Bool
  | Op.submitMessage fhe ctx c t p =>
      ctx.caller == u && (fhe.fromExternal64 c p).isSome &&
        (fhe.fromExternal32 t p).isSome
  | Op.submitMessageMock _ ctx _ _ => ctx.caller == u
  | _ => false

lemma applyOp_userMessages_length (op : Op) (s : RegistryState) (u : Nat) :
    ((applyOp op s).userMessages u).length =
      (s.userMessages u).length + (if opSubmitsFor u op then 1 else 0) := by
  cases op with
  | submitMessage fhe ctx c t p =>
    simp only [applyOp, applySubmit]
    cases h64 : fhe.fromExternal64 c p with
    | none =>
      simp [submitMessage, h64, opSubmitsFor]
    | some ch =>
      cases h32 : fhe.fromExternal32 t p with
      | none =>
        simp [submitMessage, h64, h32, opSubmitsFor]
      | some th =>
        simp only [submitMessage, h64, h32, opSubmitsFor, Option.isSome_some,
          Bool.and_true]
        by_cases hu : u = ctx.caller
        · have : (ctx.caller == u) = true := by simp [hu]
          simp [hu, this]
        · have : (ctx.caller == u) = false := by
            simp only [beq_eq_false_iff_ne, ne_eq]
            exact fun h => hu h.symm
          have hne : ¬ u = ctx.caller := hu
          simp [hne, this]
  | submitMessageMock fhe ctx c t =>
    simp only [applyOp, submitMessageMock, opSubmitsFor]
    by_cases hu : u = ctx.caller
    · have : (ctx.caller == u) = true := by simp [hu]
      simp [hu, this]
    · have : (ctx.caller == u) = false := by
        simp only [beq_eq_false_iff_ne, ne_eq]
        exact fun h => hu h.symm
      have hne : ¬ u = ctx.caller := hu
      simp [hne, this]
  | getUserMessages ctx => simp [applyOp, opSubmitsFor]
  | getUserMessageCount v => simp [applyOp, opSubmitsFor]
  | getMessageMetadata id => simp [applyOp, opSubmitsFor]
  | getEncryptedContent ctx id => simp [applyOp, opSubmitsFor]
  | getEncryptedTimestamp ctx id => simp [applyOp, opSubmitsFor]
  | getTotalMessages => simp [applyOp, opSubmitsFor]
  | isMessageOwner ctx id => simp [applyOp, opSubmitsFor]

lemma execOps_userMessages_length (ops : List Op) :
    ∀ s u, ((execOps ops s).userMessages u).length =
      (s.userMessages u).length + ops.countP (opSubmitsFor u) := by
  induction ops with
  | nil => intro s u; simp [execOps]
  | cons op ops ih =>
    intro s u
    have hstep := applyOp_userMessages_length op s u
    have : execOps (op :: ops) s = execOps ops (applyOp op s) := rfl
    rw [this, ih (applyOp op s) u, hstep, List.countP_cons]
    by_cases h : opSubmitsFor u op
    · simp [h]
      omega
    · simp [h]

/-! Concrete fixtures used by the witnesses. -/

/-- Collaborator that accepts exactly proof `0` and imports the external
handle unchanged; wraps plaintext as itself. -/
def fhe0 : FHECollab :=
  { fromExternal64 := fun e p => if p = 0 then some e else none
    fromExternal32 := fun e p => if p = 0 then some e else none
    asEuint64 := fun x => x
    asEuint32 := fun x => x }

/-- Collaborator that rejects every input proof. -/
def fheReject : FHECollab :=
  { fromExternal64 := fun _ _ => none
    fromExternal32 := fun _ _ => none
    asEuint64 := fun x => x
    asEuint32 := fun x => x }

def ctxA : Ctx := { self := 100, caller := 7, blockTimestamp := 1000 }

def ctxB : Ctx := { self := 100, caller := 8, blockTimestamp := 1001 }

/-- State after one mock submission by `ctxA`. -/
def sA : RegistryState := submitMessageMock fhe0 ctxA 5 6 initialState

/-- C1 -- The two gated reads enforce their preconditions in order: no stored
message at the id gives `MessageNotFound`; a stored message whose sender is
not the caller gives `NotAuthorized` (whatever else the caller owns, since
the state is universally quantified); otherwise the stored ciphertext handle
is returned. -/
theorem gated_reads_enforce_preconditions (ctx : Ctx) (messageId : Nat)
    (s : RegistryState) :
    ((s.messages messageId).exists_ = false →
      getEncryptedContent ctx messageId s = Except.error Err.MessageNotFound ∧
      getEncryptedTimestamp ctx messageId s =
        Except.error Err.MessageNotFound) ∧
    ((s.messages messageId).exists_ = true →
      (s.messages messageId).sender ≠ ctx.caller →
      getEncryptedContent ctx messageId s = Except.error Err.NotAuthorized ∧
      getEncryptedTimestamp ctx messageId s =
        Except.error Err.NotAuthorized) ∧
    ((s.messages messageId).exists_ = true →
      (s.messages messageId).sender = ctx.caller →
      getEncryptedContent ctx messageId s =
        Except.ok (s.messages messageId).encryptedContent ∧
      getEncryptedTimestamp ctx messageId s =
        Except.ok (s.messages messageId).encryptedTimestamp) := by
  refine ⟨fun hne => ?_, fun hex hsender => ?_, fun hex hsender => ?_⟩
  · constructor <;>
      simp [getEncryptedContent, getEncryptedTimestamp, hne]
  · constructor <;>
      simp [getEncryptedContent, getEncryptedTimestamp, hex, hsender]
  · constructor <;>
      simp [getEncryptedContent, getEncryptedTimestamp, hex, hsender]

theorem gated_reads_enforce_preconditions_witness :
    (sA.messages 0).exists_ = true ∧
    (sA.messages 0).sender ≠ ctxB.caller ∧
    (getEncryptedContent ctxB 0 sA = Except.error Err.NotAuthorized ∧
     getEncryptedTimestamp ctxB 0 sA = Except.error Err.NotAuthorized) :=
  ⟨rfl, by decide,
    (gated_reads_enforce_preconditions ctxB 0 sA).2.1 rfl (by decide)⟩

/-- C2 -- A successful `submitMessage` stores the new message at the pre-call
`totalMessages` with `sender = msg.sender`, `createdAt = block.timestamp` and
`exists = true`, appends that id to the sender's index, increments the
counter by one, and emits `MessageSubmitted` with the id, sender and
timestamp. -/
theorem submitMessage_postcondition (fhe : FHECollab) (ctx : Ctx)
    (c t p : Nat) (s : RegistryState) (ch th : Nat)
    (h64 : fhe.fromExternal64 c p = some ch)
    (h32 : fhe.fromExternal32 t p = some th) :
    (applySubmit fhe ctx c t p s).messages s.totalMessages =
      { sender := ctx.caller, encryptedContent := ch,
        encryptedTimestamp := th, createdAt := ctx.blockTimestamp,
        exists_ := true } ∧
    (applySubmit fhe ctx c t p s).userMessages ctx.caller =
      s.userMessages ctx.caller ++ [s.totalMessages] ∧
    (applySubmit fhe ctx c t p s).totalMessages = s.totalMessages + 1 ∧
    (applySubmit fhe ctx c t p s).events =
      s.events ++ [Event.MessageSubmitted s.totalMessages ctx.caller
        ctx.blockTimestamp] := by
  simp [applySubmit, submitMessage, h64, h32]

theorem submitMessage_postcondition_witness :
    fhe0.fromExternal64 5 0 = some 5 ∧ fhe0.fromExternal32 6 0 = some 6 ∧
    ((applySubmit fhe0 ctxA 5 6 0 initialState).messages
        initialState.totalMessages =
      { sender := ctxA.caller, encryptedContent := 5,
        encryptedTimestamp := 6, createdAt := ctxA.blockTimestamp,
        exists_ := true } ∧
     (applySubmit fhe0 ctxA 5 6 0 initialState).userMessages ctxA.caller =
       initialState.userMessages ctxA.caller ++
         [initialState.totalMessages] ∧
     (applySubmit fhe0 ctxA 5 6 0 initialState).totalMessages =
       initialState.totalMessages + 1 ∧
     (applySubmit fhe0 ctxA 5 6 0 initialState).events =
       initialState.events ++ [Event.MessageSubmitted
         initialState.totalMessages ctxA.caller ctxA.blockTimestamp]) :=
  ⟨rfl, rfl,
    submitMessage_postcondition fhe0 ctxA 5 6 0 initialState 5 6 rfl rfl⟩

def call0 : SubmitCall :=
  { fhe := fhe0, ctx := ctxA, encryptedContent := 5,
    encryptedTimestamp := 6, inputProof := 0 }

/-- State after running `call0` from deployment. -/
def sRun : RegistryState := applySubmit fhe0 ctxA 5 6 0 initialState

/-- C3 -- After `N` successful submissions from deployment the counter is
`N`, the allocated ids are exactly `0 .. N-1` in call order, and after every
prefix of the run a message is stored at an id exactly when the id is below
the counter — so the counter always equals the number of stored messages. -/
theorem submits_assign_sequential_ids (calls : List SubmitCall)
    (ids : List Nat) (s : RegistryState)
    (h : runSubmits calls initialState = some (ids, s)) :
    s.totalMessages = calls.length ∧ ids = List.range calls.length ∧
    (∀ k ids' t, runSubmits (calls.take k) initialState = some (ids', t) →
      (∀ id, ((t.messages id).exists_ = true ↔ id < t.totalMessages)) ∧
      ((List.range t.totalMessages).filter
          (fun i => (t.messages i).exists_)).length = t.totalMessages) := by
  obtain ⟨htot, hids⟩ := runSubmits_ids calls initialState ids s h
  refine ⟨?_, ?_, ?_⟩
  · simpa [initialState] using htot
  · rw [hids]
    simp [initialState, List.range_eq_range']
  · intro k ids' t ht
    obtain ⟨hE, _⟩ :=
      runSubmits_inv (calls.take k) initialState ids' t ht inv_initialState
    refine ⟨hE, ?_⟩
    have hall : (List.range t.totalMessages).filter
        (fun i => (t.messages i).exists_) = List.range t.totalMessages := by
      apply List.filter_eq_self.mpr
      intro a ha
      exact (hE a).mpr (List.mem_range.mp ha)
    rw [hall, List.length_range]

theorem submits_assign_sequential_ids_witness :
    runSubmits [call0] initialState = some ([0], sRun) ∧
    (sRun.totalMessages = [call0].length ∧
     [0] = List.range [call0].length ∧
     (∀ k ids' t, runSubmits ([call0].take k) initialState =
          some (ids', t) →
       (∀ id, ((t.messages id).exists_ = true ↔ id < t.totalMessages)) ∧
       ((List.range t.totalMessages).filter
           (fun i => (t.messages i).exists_)).length = t.totalMessages)) :=
  ⟨rfl, submits_assign_sequential_ids [call0] [0] sRun rfl⟩

/-- C4 -- In every reachable state, `_userMessages[u]` is exactly the list of
assigned ids whose stored sender is `u`, in submission order;
`getUserMessages` returns it verbatim for a caller with identity `u`,
`getUserMessageCount u` is its length, and that length counts precisely the
successful submissions made by `u` in the trace (0 when `u` never
submitted). -/
theorem ownerIndex_characterization (ops : List Op) (u : Nat) :
    (execOps ops initialState).userMessages u =
      (List.range (execOps ops initialState).totalMessages).filter
        (fun id => ((execOps ops initialState).messages id).sender == u) ∧
    (∀ ctx : Ctx, ctx.caller = u →
      getUserMessages ctx (execOps ops initialState) =
        (execOps ops initialState).userMessages u) ∧
    getUserMessageCount u (execOps ops initialState) =
      ((execOps ops initialState).userMessages u).length ∧
    ((execOps ops initialState).userMessages u).length =
      ops.countP (opSubmitsFor u) := by
  obtain ⟨_, hO⟩ := inv_execOps ops
  refine ⟨hO u, ?_, rfl, ?_⟩
  · intro ctx hc
    simp [getUserMessages, hc]
  · have hlen := execOps_userMessages_length ops initialState u
    simpa [initialState] using hlen

def opsW : List Op :=
  [Op.submitMessageMock fhe0 ctxA 5 6, Op.submitMessageMock fhe0 ctxB 9 10]

theorem ownerIndex_characterization_witness :
    (execOps opsW initialState).userMessages 7 =
      (List.range (execOps opsW initialState).totalMessages).filter
        (fun id => ((execOps opsW initialState).messages id).sender == 7) ∧
    (∀ ctx : Ctx, ctx.caller = 7 →
      getUserMessages ctx (execOps opsW initialState) =
        (execOps opsW initialState).userMessages 7) ∧
    getUserMessageCount 7 (execOps opsW initialState) =
      ((execOps opsW initialState).userMessages 7).length ∧
    ((execOps opsW initialState).userMessages 7).length =
      opsW.countP (opSubmitsFor 7) :=
  ownerIndex_characterization opsW 7

/-- In a state where assigned ids are exactly those below the counter, no
external call changes an already-stored message record. -/
lemma messages_frame_of_existsIff (op : Op) (s : RegistryState)
    (hE : ExistsIffLt s) (messageId : Nat)
    (h : (s.messages messageId).exists_ = true) :
    (applyOp op s).messages messageId = s.messages messageId := by
  have hne : messageId ≠ s.totalMessages := by
    have := (hE messageId).mp h
    omega
  cases op with
  | submitMessage fhe ctx c t p =>
    simp only [applyOp, applySubmit]
    cases hsub : submitMessage fhe ctx c t p s with
    | error e => rfl
    | ok s' =>
      obtain ⟨ch, th, _, _, hs'⟩ :=
        submitMessage_ok_elim fhe ctx c t p s s' hsub
      rw [hs']
      simp [hne]
  | submitMessageMock fhe ctx c t =>
    simp [applyOp, submitMessageMock, hne]
  | getUserMessages ctx => rfl
  | getUserMessageCount v => rfl
  | getMessageMetadata id => rfl
  | getEncryptedContent ctx id => rfl
  | getEncryptedTimestamp ctx id => rfl
  | getTotalMessages => rfl
  | isMessageOwner ctx id => rfl

/-- C5 -- In every reachable state, any external call leaves every
already-stored message record (all five fields) unchanged; in particular its
`exists` flag stays `true`: messages are immutable and never deleted. -/
theorem messages_immutable (ops : List Op) (op : Op) (messageId : Nat)
    (h : ((execOps ops initialState).messages messageId).exists_ = true) :
    (applyOp op (execOps ops initialState)).messages messageId =
      (execOps ops initialState).messages messageId ∧
    ((applyOp op (execOps ops initialState)).messages messageId).exists_ =
      true := by
  obtain ⟨hE, _⟩ := inv_execOps ops
  have hframe := messages_frame_of_existsIff op (execOps ops initialState)
    hE messageId h
  exact ⟨hframe, by rw [hframe]; exact h⟩

def opB : Op := Op.submitMessage fhe0 ctxB 9 10 0

theorem messages_immutable_witness :
    ((execOps opsW initialState).messages 0).exists_ = true ∧
    ((applyOp opB (execOps opsW initialState)).messages 0 =
      (execOps opsW initialState).messages 0 ∧
     ((applyOp opB (execOps opsW initialState)).messages 0).exists_ =
       true) :=
  ⟨rfl, messages_immutable opsW opB 0 rfl⟩

/-- C6 -- A successful `submitMessage` appends exactly four access grants:
both stored handles to the contract itself (`FHE.allowThis`) and to the
calling identity (`FHE.allow(..., msg.sender)`); every grant added by the
call names the caller or the registry, no other identity. -/
theorem submit_grants_access (fhe : FHECollab) (ctx : Ctx) (c t p : Nat)
    (s : RegistryState) (ch th : Nat)
    (h64 : fhe.fromExternal64 c p = some ch)
    (h32 : fhe.fromExternal32 t p = some th) :
    (applySubmit fhe ctx c t p s).acl =
      s.acl ++ [(ch, ctx.self), (ch, ctx.caller),
                (th, ctx.self), (th, ctx.caller)] ∧
    ∀ g ∈ (applySubmit fhe ctx c t p s).acl,
      g ∈ s.acl ∨ g.2 = ctx.caller ∨ g.2 = ctx.self := by
  have hacl : (applySubmit fhe ctx c t p s).acl =
      s.acl ++ [(ch, ctx.self), (ch, ctx.caller),
                (th, ctx.self), (th, ctx.caller)] := by
    simp [applySubmit, submitMessage, h64, h32]
  refine ⟨hacl, ?_⟩
  intro g hg
  rw [hacl] at hg
  rcases List.mem_append.mp hg with hmem | hmem
  · exact Or.inl hmem
  · simp only [List.mem_cons, List.not_mem_nil, or_false] at hmem
    rcases hmem with h1 | h1 | h1 | h1 <;> subst h1 <;> simp

theorem submit_grants_access_witness :
    fhe0.fromExternal64 5 0 = some 5 ∧ fhe0.fromExternal32 6 0 = some 6 ∧
    ((applySubmit fhe0 ctxA 5 6 0 initialState).acl =
       initialState.acl ++ [(5, ctxA.self), (5, ctxA.caller),
                            (6, ctxA.self), (6, ctxA.caller)] ∧
     ∀ g ∈ (applySubmit fhe0 ctxA 5 6 0 initialState).acl,
       g ∈ initialState.acl ∨ g.2 = ctxA.caller ∨ g.2 = ctxA.self) :=
  ⟨rfl, rfl, submit_grants_access fhe0 ctxA 5 6 0 initialState 5 6 rfl rfl⟩

/-- C7 -- `isMessageOwner` is true exactly when a message is stored at the id
and its sender is the caller; on a never-assigned id (at or above the counter
of a reachable state) it returns `false` instead of reverting. -/
theorem isMessageOwner_iff (ops : List Op) (messageId : Nat) (ctx : Ctx) :
    (isMessageOwner ctx messageId (execOps ops initialState) = true ↔
      ((execOps ops initialState).messages messageId).exists_ = true ∧
      ((execOps ops initialState).messages messageId).sender =
        ctx.caller) ∧
    ((execOps ops initialState).totalMessages ≤ messageId →
      isMessageOwner ctx messageId (execOps ops initialState) = false) := by
  obtain ⟨hE, _⟩ := inv_execOps ops
  constructor
  · simp [isMessageOwner, Bool.and_eq_true, beq_iff_eq]
  · intro hle
    have hne : ¬ ((execOps ops initialState).messages messageId).exists_ =
        true := by
      rw [hE messageId]
      omega
    rw [Bool.not_eq_true] at hne
    simp [isMessageOwner, hne]

theorem isMessageOwner_iff_witness :
    (isMessageOwner ctxA 0 (execOps [] initialState) = true ↔
      ((execOps [] initialState).messages 0).exists_ = true ∧
      ((execOps [] initialState).messages 0).sender = ctxA.caller) ∧
    ((execOps [] initialState).totalMessages ≤ 0 →
      isMessageOwner ctxA 0 (execOps [] initialState) = false) :=
  isMessageOwner_iff [] 0 ctxA

/-- C8 -- A `submitMessage` call that fails leaves the registry state exactly
as it was (no message, no counter change, no index entry, no grant, no
event); a rejected import fails with `ProofInvalid`; and the gated reads
never modify state, so their `MessageNotFound` / `NotAuthorized` failures
also have no effect. -/
theorem failed_operations_leave_state_unchanged (fhe : FHECollab) (ctx : Ctx)
    (c t p messageId : Nat) (s : RegistryState) (e : Err)
    (h : submitMessage fhe ctx c t p s = Except.error e) :
    applySubmit fhe ctx c t p s = s ∧
    (fhe.fromExternal64 c p = none →
      submitMessage fhe ctx c t p s = Except.error Err.ProofInvalid) ∧
    applyOp (Op.getEncryptedContent ctx messageId) s = s ∧
    applyOp (Op.getEncryptedTimestamp ctx messageId) s = s := by
  refine ⟨?_, ?_, rfl, rfl⟩
  · simp [applySubmit, h]
  · intro h64
    simp [submitMessage, h64]

theorem failed_operations_witness :
    submitMessage fheReject ctxA 1 2 3 initialState =
      Except.error Err.ProofInvalid ∧
    (applySubmit fheReject ctxA 1 2 3 initialState = initialState ∧
     (fheReject.fromExternal64 1 3 = none →
       submitMessage fheReject ctxA 1 2 3 initialState =
         Except.error Err.ProofInvalid) ∧
     applyOp (Op.getEncryptedContent ctxA 0) initialState = initialState ∧
     applyOp (Op.getEncryptedTimestamp ctxA 0) initialState =
       initialState) :=
  ⟨rfl, failed_operations_leave_state_unchanged fheReject ctxA 1 2 3 0
    initialState Err.ProofInvalid rfl⟩

/-- The nine `external` functions of the contract (its entry points). -/
inductive EntryPoint where
  | submitMessage
  | getUserMessages
  | getUserMessageCount
  | getMessageMetadata
  | getEncryptedContent
  | getEncryptedTimestamp
  | getTotalMessages
  | isMessageOwner
  | submitMessageMock
  deriving DecidableEq, Repr

/-- The contract's public interface, transcribed in source order from the
`external` functions of `EncryptedMessages`. -/
def externalEntryPoints : List EntryPoint :=
  [EntryPoint.submitMessage, EntryPoint.getUserMessages,
   EntryPoint.getUserMessageCount, EntryPoint.getMessageMetadata,
   EntryPoint.getEncryptedContent, EntryPoint.getEncryptedTimestamp,
   EntryPoint.getTotalMessages, EntryPoint.isMessageOwner,
   EntryPoint.submitMessageMock]

/-- The interface as the spec describes it (for comparison with
`externalEntryPoints`): `submit` plus the read operations the spec's
component-design section describes — `getUserMessages`,
`getUserMessageCount`, `getMessageMetadata`, `getEncryptedContent`,
`getEncryptedTimestamp`, `isMessageOwner`. -/
def specDescribedOperations : List EntryPoint :=
  [EntryPoint.submitMessage, EntryPoint.getUserMessages,
   EntryPoint.getUserMessageCount, EntryPoint.getMessageMetadata,
   EntryPoint.getEncryptedContent, EntryPoint.getEncryptedTimestamp,
   EntryPoint.isMessageOwner]

/-- C9 (counterexample) -- The contract's interface is larger than "submit
plus the described reads": `submitMessageMock` (a second, state-changing
submission path) and `getTotalMessages` are `external` too, so a UI or
script can call entry points outside the described set. -/
theorem interface_exactly_counterexample :
    EntryPoint.submitMessageMock ∈ externalEntryPoints ∧
    EntryPoint.submitMessageMock ∉ specDescribedOperations ∧
    EntryPoint.getTotalMessages ∈ externalEntryPoints ∧
    EntryPoint.getTotalMessages ∉ specDescribedOperations := by
  decide

/-- C9 (amended) -- The public interface consists of the operations the spec
describes plus exactly two further entry points: `getTotalMessages` and the
test-only `submitMessageMock`. -/
theorem interface_amended (e : EntryPoint) :
    e ∈ externalEntryPoints ↔
      e ∈ specDescribedOperations ∨ e = EntryPoint.getTotalMessages ∨
        e = EntryPoint.submitMessageMock := by
  cases e <;> decide

/-- C10 -- `submitMessageMock` performs the same registry bookkeeping as a
successful `submitMessage` whose imports return the wrapped plaintext
handles: the resulting states are equal, so the mock allocates
`messageId = totalMessages`, stores the message for the caller at ledger
time, appends to the caller's index, grants both handles to caller and
contract, emits the same event, and preserves the registry invariant. -/
theorem submitMessageMock_refines_submitMessage (fhe : FHECollab) (ctx : Ctx)
    (content timestamp : Nat) (s : RegistryState)
    (fhe2 : FHECollab) (c2 t2 p2 : Nat)
    (h64 : fhe2.fromExternal64 c2 p2 = some (fhe.asEuint64 content))
    (h32 : fhe2.fromExternal32 t2 p2 = some (fhe.asEuint32 timestamp)) :
    submitMessageMock fhe ctx content timestamp s =
      applySubmit fhe2 ctx c2 t2 p2 s ∧
    (submitMessageMock fhe ctx content timestamp s).messages
        s.totalMessages =
      { sender := ctx.caller, encryptedContent := fhe.asEuint64 content,
        encryptedTimestamp := fhe.asEuint32 timestamp,
        createdAt := ctx.blockTimestamp, exists_ := true } ∧
    (submitMessageMock fhe ctx content timestamp s).userMessages
        ctx.caller = s.userMessages ctx.caller ++ [s.totalMessages] ∧
    (submitMessageMock fhe ctx content timestamp s).totalMessages =
      s.totalMessages + 1 ∧
    (submitMessageMock fhe ctx content timestamp s).acl =
      s.acl ++ [(fhe.asEuint64 content, ctx.self),
                (fhe.asEuint64 content, ctx.caller),
                (fhe.asEuint32 timestamp, ctx.self),
                (fhe.asEuint32 timestamp, ctx.caller)] ∧
    (submitMessageMock fhe ctx content timestamp s).events =
      s.events ++ [Event.MessageSubmitted s.totalMessages ctx.caller
        ctx.blockTimestamp] ∧
    (Inv s → Inv (submitMessageMock fhe ctx content timestamp s)) := by
  refine ⟨?_, ?_, ?_, rfl, rfl, rfl,
    fun hInv => inv_submitMessageMock fhe ctx content timestamp s hInv⟩
  · simp [applySubmit, submitMessage, submitMessageMock, h64, h32]
  · simp [submitMessageMock]
  · simp [submitMessageMock]

theorem submitMessageMock_refines_witness :
    fhe0.fromExternal64 5 0 = some (fhe0.asEuint64 5) ∧
    fhe0.fromExternal32 6 0 = some (fhe0.asEuint32 6) ∧
    (submitMessageMock fhe0 ctxA 5 6 initialState =
       applySubmit fhe0 ctxA 5 6 0 initialState ∧
     (submitMessageMock fhe0 ctxA 5 6 initialState).messages
         initialState.totalMessages =
       { sender := ctxA.caller, encryptedContent := fhe0.asEuint64 5,
         encryptedTimestamp := fhe0.asEuint32 6,
         createdAt := ctxA.blockTimestamp, exists_ := true } ∧
     (submitMessageMock fhe0 ctxA 5 6 initialState).userMessages
         ctxA.caller =
       initialState.userMessages ctxA.caller ++
         [initialState.totalMessages] ∧
     (submitMessageMock fhe0 ctxA 5 6 initialState).totalMessages =
       initialState.totalMessages + 1 ∧
     (submitMessageMock fhe0 ctxA 5 6 initialState).acl =
       initialState.acl ++ [(fhe0.asEuint64 5, ctxA.self),
                            (fhe0.asEuint64 5, ctxA.caller),
                            (fhe0.asEuint32 6, ctxA.self),
                            (fhe0.asEuint32 6, ctxA.caller)] ∧
     (submitMessageMock fhe0 ctxA 5 6 initialState).events =
       initialState.events ++ [Event.MessageSubmitted
         initialState.totalMessages ctxA.caller ctxA.blockTimestamp] ∧
     (Inv initialState →
       Inv (submitMessageMock fhe0 ctxA 5 6 initialState))) :=
  ⟨rfl, rfl,
    submitMessageMock_refines_submitMessage fhe0 ctxA 5 6 initialState
      fhe0 5 6 0 rfl rfl⟩

end EncryptedMessages
